import Mathlib

/-!
Verification of the color-conversion engine of the Colour_Models repository
(`src/untitled/mainwindow.cpp`, free functions before the GUI class).

The engine operates on four value types: RGB (integer channels), CMYK
(subtractive fractions), CIE XYZ and CIE Lab (real tristimulus values).
The C++ code computes with `double`; here the RGB↔CMYK direction, which uses
only field operations on exactly representable values, is embedded over ℚ
(every IEEE double is a rational number), while the XYZ/Lab direction, which
uses `pow` and `cbrt`, is embedded over ℝ with `Real.rpow`.
`std::round` (round half away from zero) is modelled by `rnd` / `rndR`, and
`std::max(lo, std::min(hi, v))` by `clampInt`.
-/

namespace ColourModels

/-- sRGB color with integer channels, C++ `struct RGB { int r, g, b; }`. -/
structure RGB where
  r : ℤ
  g : ℤ
  b : ℤ
deriving DecidableEq

/-- CMYK color, C++ `struct CMYK { double c, m, y, k; }`. -/
structure CMYK where
  c : ℚ
  m : ℚ
  y : ℚ
  k : ℚ
deriving DecidableEq

/-- CIE XYZ color, C++ `struct XYZ { double X, Y, Z; }`. -/
structure XYZ where
  X : ℝ
  Y : ℝ
  Z : ℝ

/-- CIE Lab color, C++ `struct Lab { double L, a, b; }`. -/
structure Lab where
  L : ℝ
  a : ℝ
  b : ℝ

/-- Reference white, C++ `const double REF_X = 95.047`. -/
def REF_X : ℝ := 95.047

/-- Reference white, C++ `const double REF_Y = 100.0`. -/
def REF_Y : ℝ := 100.0

/-- Reference white, C++ `const double REF_Z = 108.883`. -/
def REF_Z : ℝ := 108.883

/-- C++ `clampInt(v, lo, hi) = std::max(lo, std::min(hi, v))`. -/
def clampInt (v lo hi : ℤ) : ℤ := max lo (min hi v)

/-- `std::round` (round half away from zero) on exact rationals. -/
def rnd (x : ℚ) : ℤ := if 0 ≤ x then ⌊x + 1/2⌋ else -⌊-x + 1/2⌋

/-- `std::round` (round half away from zero) on reals. -/
noncomputable def rndR (x : ℝ) : ℤ := if 0 ≤ x then ⌊x + 1/2⌋ else -⌊-x + 1/2⌋

/-- C++ `rgbToCmyk`: `k = 1 - max(r/255, g/255, b/255)`; when `k < 1 - 1e-12`
the C, M, Y components are `(1 - ch/255 - k)/(1 - k)`, otherwise zero. -/
def rgbToCmyk (rgb : RGB) : CMYK :=
  let k : ℚ := 1 - max ((rgb.r : ℚ) / 255) (max ((rgb.g : ℚ) / 255) ((rgb.b : ℚ) / 255))
  if k < 1 - 1/10^12 then
    { c := (1 - (rgb.r : ℚ) / 255 - k) / (1 - k)
      m := (1 - (rgb.g : ℚ) / 255 - k) / (1 - k)
      y := (1 - (rgb.b : ℚ) / 255 - k) / (1 - k)
      k := k }
  else
    { c := 0, m := 0, y := 0, k := k }

/-- Variant of `rgbToCmyk` that reports a division whose denominator is zero
as `none` instead of evaluating it; used to state that the `1 - k`
division is unreachable with a zero denominator. -/
def rgbToCmykChecked (rgb : RGB) : Option CMYK :=
  let k : ℚ := 1 - max ((rgb.r : ℚ) / 255) (max ((rgb.g : ℚ) / 255) ((rgb.b : ℚ) / 255))
  if k < 1 - 1/10^12 then
    if 1 - k = 0 then none
    else some
      { c := (1 - (rgb.r : ℚ) / 255 - k) / (1 - k)
        m := (1 - (rgb.g : ℚ) / 255 - k) / (1 - k)
        y := (1 - (rgb.b : ℚ) / 255 - k) / (1 - k)
        k := k }
  else
    some { c := 0, m := 0, y := 0, k := k }

/-- C++ `cmykToRgb`: each channel is `255(1-c)(1-k)` rounded and clamped. -/
def cmykToRgb (cmyk : CMYK) : RGB :=
  { r := clampInt (rnd (255 * (1 - cmyk.c) * (1 - cmyk.k))) 0 255
    g := clampInt (rnd (255 * (1 - cmyk.m) * (1 - cmyk.k))) 0 255
    b := clampInt (rnd (255 * (1 - cmyk.y) * (1 - cmyk.k))) 0 255 }

/-- C++ `invGamma`: inverse sRGB gamma,
`v <= 0.04045 ? v/12.92 : pow((v + 0.055)/1.055, 2.4)`. -/
noncomputable def invGamma (v : ℝ) : ℝ :=
  if v ≤ 0.04045 then v / 12.92 else ((v + 0.055) / 1.055) ^ (2.4 : ℝ)

/-- C++ `gammaSRGB`: forward sRGB gamma,
`v <= 0.0031308 ? 12.92*v : 1.055*pow(v, 1/2.4) - 0.055`. -/
noncomputable def gammaSRGB (v : ℝ) : ℝ :=
  if v ≤ 0.0031308 then 12.92 * v else 1.055 * v ^ ((1 : ℝ) / 2.4) - 0.055

/-- C++ `rgbToXyz`: normalize channels, apply `invGamma`, then the fixed
sRGB→XYZ matrix, scaled by 100. -/
noncomputable def rgbToXyz (rgb : RGB) : XYZ :=
  { X := (invGamma ((rgb.r : ℝ) / 255) * 0.4124564 + invGamma ((rgb.g : ℝ) / 255) * 0.3575761
      + invGamma ((rgb.b : ℝ) / 255) * 0.1804375) * 100
    Y := (invGamma ((rgb.r : ℝ) / 255) * 0.2126729 + invGamma ((rgb.g : ℝ) / 255) * 0.7151522
      + invGamma ((rgb.b : ℝ) / 255) * 0.0721750) * 100
    Z := (invGamma ((rgb.r : ℝ) / 255) * 0.0193339 + invGamma ((rgb.g : ℝ) / 255) * 0.1191920
      + invGamma ((rgb.b : ℝ) / 255) * 0.9503041) * 100 }

/-- Result of `xyzToRgb` / `labToRgb`, C++ `std::pair<RGB, bool>`; the C++
boolean flag is embedded as the proposition it is assigned from. -/
structure RgbResult where
  rgb : RGB
  clipped : Prop

/-- The linear (pre-gamma) red channel computed inside C++ `xyzToRgb`. -/
noncomputable def xyzLinR (xyz : XYZ) : ℝ :=
  xyz.X / 100 * 3.2406 + xyz.Y / 100 * (-1.5372) + xyz.Z / 100 * (-0.4986)

/-- The linear (pre-gamma) green channel computed inside C++ `xyzToRgb`. -/
noncomputable def xyzLinG (xyz : XYZ) : ℝ :=
  xyz.X / 100 * (-0.9689) + xyz.Y / 100 * 1.8758 + xyz.Z / 100 * 0.0415

/-- The linear (pre-gamma) blue channel computed inside C++ `xyzToRgb`. -/
noncomputable def xyzLinB (xyz : XYZ) : ℝ :=
  xyz.X / 100 * 0.0557 + xyz.Y / 100 * (-0.2040) + xyz.Z / 100 * 1.0570

/-- C++ `xyzToRgb`: inverse matrix, forward gamma, clipping flag when a
gamma-corrected channel leaves [0,1], then round and clamp each channel. -/
noncomputable def xyzToRgb (xyz : XYZ) : RgbResult :=
  { rgb :=
      { r := clampInt (rndR (gammaSRGB (xyzLinR xyz) * 255)) 0 255
        g := clampInt (rndR (gammaSRGB (xyzLinG xyz) * 255)) 0 255
        b := clampInt (rndR (gammaSRGB (xyzLinB xyz) * 255)) 0 255 }
    clipped :=
      gammaSRGB (xyzLinR xyz) < 0 ∨ 1 < gammaSRGB (xyzLinR xyz) ∨
      gammaSRGB (xyzLinG xyz) < 0 ∨ 1 < gammaSRGB (xyzLinG xyz) ∨
      gammaSRGB (xyzLinB xyz) < 0 ∨ 1 < gammaSRGB (xyzLinB xyz) }

/-- `std::cbrt`: real cube root (odd extension of the 1/3 power). -/
noncomputable def cbrt (t : ℝ) : ℝ :=
  if 0 ≤ t then t ^ ((1 : ℝ) / 3) else -((-t) ^ ((1 : ℝ) / 3))

/-- The nonlinearity `f` inside C++ `xyzToLab`:
`t > 0.008856 ? cbrt(t) : 7.787*t + 16/116`. -/
noncomputable def labF (t : ℝ) : ℝ :=
  if 0.008856 < t then cbrt t else 7.787 * t + 16 / 116

/-- C++ `xyzToLab`: ratios against the reference white, `labF`, then the
affine L/a/b combinations. -/
noncomputable def xyzToLab (xyz : XYZ) : Lab :=
  { L := 116 * labF (xyz.Y / REF_Y) - 16
    a := 500 * (labF (xyz.X / REF_X) - labF (xyz.Y / REF_Y))
    b := 200 * (labF (xyz.Y / REF_Y) - labF (xyz.Z / REF_Z)) }

/-- The inverse nonlinearity `invf` inside C++ `labToXyz`:
`t*t*t > 0.008856 ? t*t*t : (t - 16/116)/7.787`. -/
noncomputable def labInvF (t : ℝ) : ℝ :=
  if 0.008856 < t ^ 3 then t ^ 3 else (t - 16 / 116) / 7.787

/-- C++ `labToXyz`: recover `fx, fy, fz`, apply `labInvF`, rescale by the
reference white. -/
noncomputable def labToXyz (lab : Lab) : XYZ :=
  { X := labInvF (lab.a / 500 + (lab.L + 16) / 116) * REF_X
    Y := labInvF ((lab.L + 16) / 116) * REF_Y
    Z := labInvF ((lab.L + 16) / 116 - lab.b / 200) * REF_Z }

/-- C++ `rgbToLab`: composite through XYZ. -/
noncomputable def rgbToLab (rgb : RGB) : Lab := xyzToLab (rgbToXyz rgb)

/-- C++ `labToRgb`: composite through XYZ, propagating the clipping flag. -/
noncomputable def labToRgb (lab : Lab) : RgbResult := xyzToRgb (labToXyz lab)

/-! ### Generic facts about clamping and rounding -/

lemma clampInt_mem_lo (v lo hi : ℤ) : lo ≤ clampInt v lo hi := le_max_left _ _

lemma clampInt_mem_hi (v lo hi : ℤ) (h : lo ≤ hi) : clampInt v lo hi ≤ hi :=
  max_le h (min_le_left _ _)

lemma clampInt_eq_self (v lo hi : ℤ) (h1 : lo ≤ v) (h2 : v ≤ hi) : clampInt v lo hi = v := by
  unfold clampInt
  rw [min_eq_right h2, max_eq_right h1]

lemma rnd_intCast (n : ℤ) : rnd (n : ℚ) = n := by
  unfold rnd
  have hfl : ∀ m : ℤ, ⌊(m : ℚ) + 1/2⌋ = m := by
    intro m
    rw [Int.floor_int_add]
    norm_num
  split
  · exact hfl n
  · rw [show -(n : ℚ) = ((-n : ℤ) : ℚ) by push_cast; ring, hfl (-n)]
    ring

lemma rndR_eq_of_bounds (x : ℝ) (n : ℤ) (hn : 0 ≤ n)
    (hl : (n : ℝ) - 1/2 < x) (hh : x < (n : ℝ) + 1/2) : rndR x = n := by
  unfold rndR
  split
  case isTrue h =>
    rw [Int.floor_eq_iff]
    constructor
    · push_cast
      linarith
    · push_cast
      linarith
  case isFalse h =>
    have hx : x < 0 := lt_of_not_le h
    have hn0 : n = 0 := by
      have h1 : (n : ℝ) < 1 := by linarith
      have h2 : n < 1 := by exact_mod_cast h1
      omega
    subst hn0
    have : ⌊-x + 1/2⌋ = 0 := by
      rw [Int.floor_eq_iff]
      push_cast
      constructor <;> [linarith; linarith [hh]]
    rw [this]
    ring

/-! ### Conversions between `rpow` with rational exponents and integer powers -/

lemma rpow_div_nat_pow (x : ℝ) (hx : 0 ≤ x) (p q : ℕ) (hq : (q : ℝ) ≠ 0) :
    (x ^ ((p : ℝ) / q)) ^ (q : ℕ) = x ^ (p : ℕ) := by
  rw [← Real.rpow_natCast (x ^ ((p : ℝ) / q)) q, ← Real.rpow_mul hx,
    div_mul_cancel₀ _ hq, Real.rpow_natCast]

lemma rpow_div_le_of_pow_le {x c : ℝ} (hx : 0 ≤ x) (hc : 0 ≤ c) (p q : ℕ) (hq : q ≠ 0)
    (h : x ^ p ≤ c ^ q) : x ^ ((p : ℝ) / q) ≤ c := by
  refine le_of_pow_le_pow_left₀ hq hc ?_
  rw [rpow_div_nat_pow x hx p q (by exact_mod_cast hq)]
  exact h

lemma rpow_div_lt_of_pow_lt {x c : ℝ} (hx : 0 ≤ x) (hc : 0 ≤ c) (p q : ℕ) (hq : q ≠ 0)
    (h : x ^ p < c ^ q) : x ^ ((p : ℝ) / q) < c := by
  refine lt_of_pow_lt_pow_left₀ q hc ?_
  rw [rpow_div_nat_pow x hx p q (by exact_mod_cast hq)]
  exact h

lemma le_rpow_div_of_pow_le {x c : ℝ} (hx : 0 ≤ x) (hc : 0 ≤ c) (p q : ℕ) (hq : q ≠ 0)
    (h : c ^ q ≤ x ^ p) : c ≤ x ^ ((p : ℝ) / q) := by
  refine le_of_pow_le_pow_left₀ hq (by positivity) ?_
  rw [rpow_div_nat_pow x hx p q (by exact_mod_cast hq)]
  exact h

lemma lt_rpow_div_of_pow_lt {x c : ℝ} (hx : 0 ≤ x) (hc : 0 ≤ c) (p q : ℕ) (hq : q ≠ 0)
    (h : c ^ q < x ^ p) : c < x ^ ((p : ℝ) / q) := by
  refine lt_of_pow_lt_pow_left₀ q (by positivity) ?_
  rw [rpow_div_nat_pow x hx p q (by exact_mod_cast hq)]
  exact h

lemma le_rpow_twelve_fifths {x c : ℝ} (hx : 0 ≤ x) (hc : 0 ≤ c) (h : c ^ 5 ≤ x ^ 12) :
    c ≤ x ^ ((12 : ℝ) / 5) := by
  have h' := le_rpow_div_of_pow_le hx hc 12 5 (by norm_num) h
  rwa [show ((12 : ℕ) : ℝ) / ((5 : ℕ) : ℝ) = (12 : ℝ) / 5 by push_cast; ring] at h'

lemma le_rpow_seven_fifths {x c : ℝ} (hx : 0 ≤ x) (hc : 0 ≤ c) (h : c ^ 5 ≤ x ^ 7) :
    c ≤ x ^ ((7 : ℝ) / 5) := by
  have h' := le_rpow_div_of_pow_le hx hc 7 5 (by norm_num) h
  rwa [show ((7 : ℕ) : ℝ) / ((5 : ℕ) : ℝ) = (7 : ℝ) / 5 by push_cast; ring] at h'

lemma rpow_five_twelfths_lt {x c : ℝ} (hx : 0 ≤ x) (hc : 0 ≤ c) (h : x ^ 5 < c ^ 12) :
    x ^ ((5 : ℝ) / 12) < c := by
  have h' := rpow_div_lt_of_pow_lt hx hc 5 12 (by norm_num) h
  rwa [show ((5 : ℕ) : ℝ) / ((12 : ℕ) : ℝ) = (5 : ℝ) / 12 by push_cast; ring] at h'

lemma lt_rpow_five_twelfths {x c : ℝ} (hx : 0 ≤ x) (hc : 0 ≤ c) (h : c ^ 12 < x ^ 5) :
    c < x ^ ((5 : ℝ) / 12) := by
  have h' := lt_rpow_div_of_pow_lt hx hc 5 12 (by norm_num) h
  rwa [show ((5 : ℕ) : ℝ) / ((12 : ℕ) : ℝ) = (5 : ℝ) / 12 by push_cast; ring] at h'

/-! ### The RGB ↔ CMYK direction -/

lemma max_cast_div (r g b : ℤ) :
    max ((r : ℚ) / 255) (max ((g : ℚ) / 255) ((b : ℚ) / 255))
      = ((max r (max g b) : ℤ) : ℚ) / 255 := by
  push_cast
  rw [max_div_div_right (by norm_num : (0:ℚ) ≤ 255),
    max_div_div_right (by norm_num : (0:ℚ) ≤ 255)]

/-- In the branch where the maximal channel is positive, `rgbToCmyk` computes
the division formulas with `k = 1 - M/255`. -/
lemma rgbToCmyk_eq_pos (rgb : RGB) (hM : 1 ≤ max rgb.r (max rgb.g rgb.b)) :
    rgbToCmyk rgb =
      { c := (1 - (rgb.r : ℚ) / 255 - (1 - ((max rgb.r (max rgb.g rgb.b) : ℤ) : ℚ) / 255))
              / (((max rgb.r (max rgb.g rgb.b) : ℤ) : ℚ) / 255)
        m := (1 - (rgb.g : ℚ) / 255 - (1 - ((max rgb.r (max rgb.g rgb.b) : ℤ) : ℚ) / 255))
              / (((max rgb.r (max rgb.g rgb.b) : ℤ) : ℚ) / 255)
        y := (1 - (rgb.b : ℚ) / 255 - (1 - ((max rgb.r (max rgb.g rgb.b) : ℤ) : ℚ) / 255))
              / (((max rgb.r (max rgb.g rgb.b) : ℤ) : ℚ) / 255)
        k := 1 - ((max rgb.r (max rgb.g rgb.b) : ℤ) : ℚ) / 255 } := by
  have hMq : (1 : ℚ) ≤ ((max rgb.r (max rgb.g rgb.b) : ℤ) : ℚ) := by exact_mod_cast hM
  unfold rgbToCmyk
  rw [max_cast_div]
  rw [if_pos (by linarith)]
  simp only [CMYK.mk.injEq]
  refine ⟨by ring_nf, by ring_nf, by ring_nf, by ring_nf⟩

/-- In the branch where all channels are `0`, `rgbToCmyk` returns pure black. -/
lemma rgbToCmyk_eq_zero (rgb : RGB) (hM : max rgb.r (max rgb.g rgb.b) = 0) :
    rgbToCmyk rgb = { c := 0, m := 0, y := 0, k := 1 } := by
  unfold rgbToCmyk
  rw [max_cast_div, hM]
  rw [if_neg (by norm_num)]
  norm_num

lemma cmyk_channel_cancel (ch k : ℚ) (hk : 1 - k ≠ 0) :
    255 * (1 - (1 - ch / 255 - k) / (1 - k)) * (1 - k) = ch := by
  field_simp
  ring

/-- Claim C2: for every RGB triple with each channel an integer in `[0,255]`,
`cmykToRgb (rgbToCmyk rgb)` equals `rgb` exactly. -/
theorem c2_cmyk_roundtrip_exact (rgb : RGB)
    (hr0 : 0 ≤ rgb.r) (hr1 : rgb.r ≤ 255) (hg0 : 0 ≤ rgb.g) (hg1 : rgb.g ≤ 255)
    (hb0 : 0 ≤ rgb.b) (hb1 : rgb.b ≤ 255) :
    cmykToRgb (rgbToCmyk rgb) = rgb := by
  obtain ⟨r, g, b⟩ := rgb
  simp only at hr0 hr1 hg0 hg1 hb0 hb1
  have key : ∀ ch : ℤ, 0 ≤ ch → ch ≤ 255 → ∀ q : ℚ, 1 - q ≠ 0 →
      clampInt (rnd (255 * (1 - (1 - (ch : ℚ) / 255 - q) / (1 - q)) * (1 - q))) 0 255 = ch := by
    intro ch h0 h1 q hq
    rw [cmyk_channel_cancel _ _ hq, rnd_intCast]
    exact clampInt_eq_self _ _ _ h0 h1
  by_cases hM : 1 ≤ max r (max g b)
  case pos =>
    have hMq : (1 : ℚ) ≤ ((max r (max g b) : ℤ) : ℚ) := by exact_mod_cast hM
    have ht : (1 : ℚ) / 255 ≤ ((max r (max g b) : ℤ) : ℚ) / 255 :=
      (div_le_div_iff_of_pos_right (by norm_num)).mpr hMq
    have hq : (1 : ℚ) - (1 - ((max r (max g b) : ℤ) : ℚ) / 255) ≠ 0 := by
      intro h
      linarith
    unfold rgbToCmyk
    rw [max_cast_div, if_pos (by linarith)]
    unfold cmykToRgb
    simp only [RGB.mk.injEq]
    exact ⟨key r hr0 hr1 _ hq, key g hg0 hg1 _ hq, key b hb0 hb1 _ hq⟩
  case neg =>
    have hr : r ≤ max r (max g b) := le_max_left _ _
    have hg : g ≤ max r (max g b) := le_trans (le_max_left _ _) (le_max_right _ _)
    have hb : b ≤ max r (max g b) := le_trans (le_max_right _ _) (le_max_right _ _)
    have : r = 0 ∧ g = 0 ∧ b = 0 := by omega
    obtain ⟨rfl, rfl, rfl⟩ := this
    rw [rgbToCmyk_eq_zero ⟨0, 0, 0⟩ rfl]
    unfold cmykToRgb
    dsimp only
    rw [show (255 : ℚ) * (1 - 0) * (1 - 1) = ((0 : ℤ) : ℚ) by norm_num, rnd_intCast]
    simp only [RGB.mk.injEq]
    refine ⟨?_, ?_, ?_⟩ <;> exact clampInt_eq_self 0 0 255 le_rfl (by decide)

/-- Witness for C2 at the triple `(12, 200, 0)`. -/
theorem c2_cmyk_roundtrip_exact_witness :
    cmykToRgb (rgbToCmyk ⟨12, 200, 0⟩) = ⟨12, 200, 0⟩ :=
  c2_cmyk_roundtrip_exact ⟨12, 200, 0⟩ (by decide) (by decide) (by decide) (by decide)
    (by decide) (by decide)

/-- Claim C5: on integer channels in `[0,255]` the CMYK components lie in
`[0,1]`, and whenever `k` comes within `1e-12` of `1` the result is exactly
pure black `c = m = y = 0, k = 1`. -/
theorem c5_cmyk_range_and_black (rgb : RGB)
    (hr0 : 0 ≤ rgb.r) (hr1 : rgb.r ≤ 255) (hg0 : 0 ≤ rgb.g) (hg1 : rgb.g ≤ 255)
    (hb0 : 0 ≤ rgb.b) (hb1 : rgb.b ≤ 255) :
    (0 ≤ (rgbToCmyk rgb).c ∧ (rgbToCmyk rgb).c ≤ 1) ∧
    (0 ≤ (rgbToCmyk rgb).m ∧ (rgbToCmyk rgb).m ≤ 1) ∧
    (0 ≤ (rgbToCmyk rgb).y ∧ (rgbToCmyk rgb).y ≤ 1) ∧
    (0 ≤ (rgbToCmyk rgb).k ∧ (rgbToCmyk rgb).k ≤ 1) ∧
    (1 - 1/10^12 ≤ (rgbToCmyk rgb).k →
      (rgbToCmyk rgb).c = 0 ∧ (rgbToCmyk rgb).m = 0 ∧ (rgbToCmyk rgb).y = 0 ∧
        (rgbToCmyk rgb).k = 1) := by
  obtain ⟨r, g, b⟩ := rgb
  simp only at hr0 hr1 hg0 hg1 hb0 hb1
  have hr : r ≤ max r (max g b) := le_max_left _ _
  have hg : g ≤ max r (max g b) := le_trans (le_max_left _ _) (le_max_right _ _)
  have hb : b ≤ max r (max g b) := le_trans (le_max_right _ _) (le_max_right _ _)
  by_cases hM : 1 ≤ max r (max g b)
  case pos =>
    rw [rgbToCmyk_eq_pos ⟨r, g, b⟩ hM]
    simp only
    have hM255 : max r (max g b) ≤ 255 := by omega
    have hMq : (1 : ℚ) ≤ ((max r (max g b) : ℤ) : ℚ) := by exact_mod_cast hM
    have hMq255 : ((max r (max g b) : ℤ) : ℚ) ≤ 255 := by exact_mod_cast hM255
    have hMpos : (0 : ℚ) < ((max r (max g b) : ℤ) : ℚ) / 255 := by positivity
    have comp : ∀ ch : ℤ, 0 ≤ ch → ch ≤ max r (max g b) →
        0 ≤ (1 - (ch : ℚ) / 255 - (1 - ((max r (max g b) : ℤ) : ℚ) / 255))
            / (((max r (max g b) : ℤ) : ℚ) / 255) ∧
        (1 - (ch : ℚ) / 255 - (1 - ((max r (max g b) : ℤ) : ℚ) / 255))
            / (((max r (max g b) : ℤ) : ℚ) / 255) ≤ 1 := by
      intro ch h0 h1
      have h1q : (ch : ℚ) ≤ ((max r (max g b) : ℤ) : ℚ) := by exact_mod_cast h1
      have h0q : (0 : ℚ) ≤ (ch : ℚ) := by exact_mod_cast h0
      constructor
      · apply div_nonneg _ hMpos.le
        linarith
      · rw [div_le_one hMpos]
        linarith
    refine ⟨comp r hr0 hr, comp g hg0 hg, comp b hb0 hb, ⟨by linarith, by linarith⟩, ?_⟩
    intro hk
    exfalso
    have : ((max r (max g b) : ℤ) : ℚ) / 255 ≤ 1/10^12 := by linarith
    nlinarith
  case neg =>
    have : r = 0 ∧ g = 0 ∧ b = 0 := by omega
    obtain ⟨rfl, rfl, rfl⟩ := this
    rw [rgbToCmyk_eq_zero ⟨0, 0, 0⟩ rfl]
    norm_num

/-- Witness for C5 at the pure-black triple `(0, 0, 0)`. -/
theorem c5_cmyk_range_and_black_witness :
    (0 ≤ (rgbToCmyk ⟨0, 0, 0⟩).c ∧ (rgbToCmyk ⟨0, 0, 0⟩).c ≤ 1) ∧
    (0 ≤ (rgbToCmyk ⟨0, 0, 0⟩).m ∧ (rgbToCmyk ⟨0, 0, 0⟩).m ≤ 1) ∧
    (0 ≤ (rgbToCmyk ⟨0, 0, 0⟩).y ∧ (rgbToCmyk ⟨0, 0, 0⟩).y ≤ 1) ∧
    (0 ≤ (rgbToCmyk ⟨0, 0, 0⟩).k ∧ (rgbToCmyk ⟨0, 0, 0⟩).k ≤ 1) ∧
    (1 - 1/10^12 ≤ (rgbToCmyk ⟨0, 0, 0⟩).k →
      (rgbToCmyk ⟨0, 0, 0⟩).c = 0 ∧ (rgbToCmyk ⟨0, 0, 0⟩).m = 0 ∧
        (rgbToCmyk ⟨0, 0, 0⟩).y = 0 ∧ (rgbToCmyk ⟨0, 0, 0⟩).k = 1) :=
  c5_cmyk_range_and_black ⟨0, 0, 0⟩ (by decide) (by decide) (by decide) (by decide)
    (by decide) (by decide)

/-- Claim C7: the conversion functions are total; in particular the only
input-dependent division, by `1 - k` in `rgbToCmyk`, happens only under the
guard `k < 1 - 1e-12`, so its denominator is never zero: the checked variant
never returns `none` and agrees with `rgbToCmyk` on every input. -/
theorem c7_division_guarded (rgb : RGB) :
    rgbToCmykChecked rgb = some (rgbToCmyk rgb) := by
  simp only [rgbToCmykChecked, rgbToCmyk]
  split_ifs with h1 h2
  · exfalso
    have : max ((rgb.r : ℚ) / 255) (max ((rgb.g : ℚ) / 255) ((rgb.b : ℚ) / 255)) = 0 := by
      linarith
    rw [this] at h1
    norm_num at h1
  · rfl
  · rfl

/-- Claim C9: for integer channels in `[0,255]` at least one of the C, M, Y
components is exactly `0`, namely one whose channel attains the maximum. -/
theorem c9_max_component_zero (rgb : RGB)
    (hr0 : 0 ≤ rgb.r) (hr1 : rgb.r ≤ 255) (hg0 : 0 ≤ rgb.g) (hg1 : rgb.g ≤ 255)
    (hb0 : 0 ≤ rgb.b) (hb1 : rgb.b ≤ 255) :
    ((rgbToCmyk rgb).c = 0 ∨ (rgbToCmyk rgb).m = 0 ∨ (rgbToCmyk rgb).y = 0) ∧
    (rgb.r = max rgb.r (max rgb.g rgb.b) → (rgbToCmyk rgb).c = 0) ∧
    (rgb.g = max rgb.r (max rgb.g rgb.b) → (rgbToCmyk rgb).m = 0) ∧
    (rgb.b = max rgb.r (max rgb.g rgb.b) → (rgbToCmyk rgb).y = 0) := by
  obtain ⟨r, g, b⟩ := rgb
  by_cases hM : 1 ≤ max r (max g b)
  case pos =>
    rw [rgbToCmyk_eq_pos ⟨r, g, b⟩ hM]
    simp only
    have hzero : ∀ ch : ℤ, ch = max r (max g b) →
        (1 - (ch : ℚ) / 255 - (1 - ((max r (max g b) : ℤ) : ℚ) / 255))
          / (((max r (max g b) : ℤ) : ℚ) / 255) = 0 := by
      intro ch hch
      rw [hch]
      rw [show (1 : ℚ) - ((max r (max g b) : ℤ) : ℚ) / 255
          - (1 - ((max r (max g b) : ℤ) : ℚ) / 255) = 0 by ring]
      exact zero_div _
    refine ⟨?_, hzero r, hzero g, hzero b⟩
    rcases max_choice r (max g b) with h | h
    · exact Or.inl (hzero r h.symm)
    · rcases max_choice g b with h' | h'
      · refine Or.inr (Or.inl (hzero g ?_))
        rw [h, h']
      · refine Or.inr (Or.inr (hzero b ?_))
        rw [h, h']
  case neg =>
    simp only at hr0 hg0 hb0
    have hr : r ≤ max r (max g b) := le_max_left _ _
    have hg : g ≤ max r (max g b) := le_trans (le_max_left _ _) (le_max_right _ _)
    have hb : b ≤ max r (max g b) := le_trans (le_max_right _ _) (le_max_right _ _)
    have : r = 0 ∧ g = 0 ∧ b = 0 := by omega
    obtain ⟨rfl, rfl, rfl⟩ := this
    rw [rgbToCmyk_eq_zero ⟨0, 0, 0⟩ rfl]
    simp

/-- Witness for C9 at the triple `(3, 1, 2)` (red channel maximal). -/
theorem c9_max_component_zero_witness :
    ((rgbToCmyk ⟨3, 1, 2⟩).c = 0 ∨ (rgbToCmyk ⟨3, 1, 2⟩).m = 0 ∨ (rgbToCmyk ⟨3, 1, 2⟩).y = 0) ∧
    ((3 : ℤ) = max 3 (max 1 2) → (rgbToCmyk ⟨3, 1, 2⟩).c = 0) ∧
    ((1 : ℤ) = max 3 (max 1 2) → (rgbToCmyk ⟨3, 1, 2⟩).m = 0) ∧
    ((2 : ℤ) = max 3 (max 1 2) → (rgbToCmyk ⟨3, 1, 2⟩).y = 0) :=
  c9_max_component_zero ⟨3, 1, 2⟩ (by decide) (by decide) (by decide) (by decide)
    (by decide) (by decide)

/-- Claim C4: `xyzToRgb` sets the clipping flag exactly when one of the
gamma-corrected channels leaves `[0,1]` before rounding, and regardless of
the flag each returned integer channel is the rounded value clamped
to `[0,255]`. -/
theorem c4_clip_flag_and_clamp (xyz : XYZ) :
    ((xyzToRgb xyz).clipped ↔
      (gammaSRGB (xyzLinR xyz) < 0 ∨ 1 < gammaSRGB (xyzLinR xyz) ∨
       gammaSRGB (xyzLinG xyz) < 0 ∨ 1 < gammaSRGB (xyzLinG xyz) ∨
       gammaSRGB (xyzLinB xyz) < 0 ∨ 1 < gammaSRGB (xyzLinB xyz))) ∧
    (xyzToRgb xyz).rgb.r = clampInt (rndR (gammaSRGB (xyzLinR xyz) * 255)) 0 255 ∧
    (xyzToRgb xyz).rgb.g = clampInt (rndR (gammaSRGB (xyzLinG xyz) * 255)) 0 255 ∧
    (xyzToRgb xyz).rgb.b = clampInt (rndR (gammaSRGB (xyzLinB xyz) * 255)) 0 255 ∧
    0 ≤ (xyzToRgb xyz).rgb.r ∧ (xyzToRgb xyz).rgb.r ≤ 255 ∧
    0 ≤ (xyzToRgb xyz).rgb.g ∧ (xyzToRgb xyz).rgb.g ≤ 255 ∧
    0 ≤ (xyzToRgb xyz).rgb.b ∧ (xyzToRgb xyz).rgb.b ≤ 255 :=
  ⟨Iff.rfl, rfl, rfl, rfl,
    clampInt_mem_lo _ _ _, clampInt_mem_hi _ _ _ (by norm_num),
    clampInt_mem_lo _ _ _, clampInt_mem_hi _ _ _ (by norm_num),
    clampInt_mem_lo _ _ _, clampInt_mem_hi _ _ _ (by norm_num)⟩

/-- Claim C8: every conversion producing an RGB value returns integer
channels in `[0,255]` for every input, in-range or not. -/
theorem c8_rgb_outputs_clamped :
    (∀ cmyk : CMYK, 0 ≤ (cmykToRgb cmyk).r ∧ (cmykToRgb cmyk).r ≤ 255 ∧
      0 ≤ (cmykToRgb cmyk).g ∧ (cmykToRgb cmyk).g ≤ 255 ∧
      0 ≤ (cmykToRgb cmyk).b ∧ (cmykToRgb cmyk).b ≤ 255) ∧
    (∀ xyz : XYZ, 0 ≤ (xyzToRgb xyz).rgb.r ∧ (xyzToRgb xyz).rgb.r ≤ 255 ∧
      0 ≤ (xyzToRgb xyz).rgb.g ∧ (xyzToRgb xyz).rgb.g ≤ 255 ∧
      0 ≤ (xyzToRgb xyz).rgb.b ∧ (xyzToRgb xyz).rgb.b ≤ 255) ∧
    (∀ lab : Lab, 0 ≤ (labToRgb lab).rgb.r ∧ (labToRgb lab).rgb.r ≤ 255 ∧
      0 ≤ (labToRgb lab).rgb.g ∧ (labToRgb lab).rgb.g ≤ 255 ∧
      0 ≤ (labToRgb lab).rgb.b ∧ (labToRgb lab).rgb.b ≤ 255) := by
  refine ⟨fun cmyk => ?_, fun xyz => ?_, fun lab => ?_⟩ <;>
    exact ⟨clampInt_mem_lo _ _ _, clampInt_mem_hi _ _ _ (by norm_num),
      clampInt_mem_lo _ _ _, clampInt_mem_hi _ _ _ (by norm_num),
      clampInt_mem_lo _ _ _, clampInt_mem_hi _ _ _ (by norm_num)⟩

/-! ### The XYZ ↔ Lab direction -/

lemma cbrt_cube {t : ℝ} (ht : 0 ≤ t) : cbrt t ^ 3 = t := by
  rw [cbrt, if_pos ht, ← Real.rpow_natCast (t ^ ((1 : ℝ) / 3)) 3, ← Real.rpow_mul ht,
    show (1 : ℝ) / 3 * ((3 : ℕ) : ℝ) = 1 by push_cast; ring, Real.rpow_one]

lemma cube_le_cube {a b : ℝ} (h : a ≤ b) : a ^ 3 ≤ b ^ 3 := by
  nlinarith [sq_nonneg (a + b), sq_nonneg (a - b), sq_nonneg a, sq_nonneg b]

/-- The piecewise nonlinearity of `xyzToLab` is a section of the piecewise
nonlinearity of `labToXyz`: with the rounded constants `7.787` and `0.008856`
the inverse applied after the forward map recovers every real input. -/
lemma labInvF_labF (t : ℝ) : labInvF (labF t) = t := by
  unfold labF
  split_ifs with h
  · have ht : (0 : ℝ) ≤ t := le_of_lt (lt_trans (by norm_num) h)
    unfold labInvF
    rw [cbrt_cube ht, if_pos h]
  · push_neg at h
    unfold labInvF
    have hcube : (7.787 * t + 16 / 116) ^ 3 ≤ (7.787 * 0.008856 + 16 / 116 : ℝ) ^ 3 :=
      cube_le_cube (by linarith)
    have hnum : ((7.787 * 0.008856 + 16 / 116 : ℝ)) ^ 3 ≤ 0.008856 := by norm_num
    rw [if_neg (by push_neg; linarith)]
    field_simp

/-- Claim C3 (amended): `labToXyz` is a left inverse of `xyzToLab` on every
XYZ value: `labToXyz (xyzToLab xyz) = xyz` with no clipping anywhere. -/
theorem c3_labToXyz_xyzToLab (xyz : XYZ) : labToXyz (xyzToLab xyz) = xyz := by
  obtain ⟨x, y, z⟩ := xyz
  unfold xyzToLab labToXyz
  dsimp only
  rw [show 500 * (labF (x / REF_X) - labF (y / REF_Y)) / 500
        + (116 * labF (y / REF_Y) - 16 + 16) / 116 = labF (x / REF_X) by ring,
    show (116 * labF (y / REF_Y) - 16 + 16) / 116 = labF (y / REF_Y) by ring,
    show labF (y / REF_Y)
        - 200 * (labF (y / REF_Y) - labF (z / REF_Z)) / 200 = labF (z / REF_Z) by ring]
  rw [labInvF_labF, labInvF_labF, labInvF_labF]
  simp only [XYZ.mk.injEq]
  refine ⟨?_, ?_, ?_⟩ <;>
    exact div_mul_cancel₀ _ (by norm_num [REF_X, REF_Y, REF_Z])

/-- Counterexample to claim C3 as stated: for the Lab value
`(L, a, b) = (7.999588, 0, 0)` the value `fy = 0.206893` falls in the small
window where `labToXyz` takes the linear branch while `xyzToLab` on the
result takes the cube-root branch, so the round trip moves the input. -/
theorem c3_counterexample : xyzToLab (labToXyz ⟨7.999588, 0, 0⟩) ≠ ⟨7.999588, 0, 0⟩ := by
  intro hEq
  have hL := congrArg Lab.L hEq
  unfold xyzToLab labToXyz at hL
  dsimp only at hL
  rw [show ((7.999588 : ℝ) + 16) / 116 = 0.206893 by norm_num] at hL
  rw [show labInvF (0.206893 : ℝ) = ((0.206893 : ℝ) - 16 / 116) / 7.787 by
    unfold labInvF; rw [if_neg (by norm_num)]] at hL
  rw [mul_div_cancel_right₀ _ (by norm_num [REF_Y] : REF_Y ≠ 0)] at hL
  have htpos : (0.008856 : ℝ) < ((0.206893 : ℝ) - 16 / 116) / 7.787 := by norm_num
  unfold labF at hL
  rw [if_pos htpos] at hL
  have h0t : (0 : ℝ) ≤ ((0.206893 : ℝ) - 16 / 116) / 7.787 := by norm_num
  have hc := cbrt_cube h0t
  have hcb : cbrt (((0.206893 : ℝ) - 16 / 116) / 7.787) = 0.206893 := by linarith
  rw [hcb] at hc
  norm_num at hc

/-- Claim C6: `xyzToLab` maps the fixed reference white exactly to
`L = 100, a = 0, b = 0`. -/
theorem c6_reference_white : xyzToLab ⟨REF_X, REF_Y, REF_Z⟩ = ⟨100, 0, 0⟩ := by
  have h1 : ∀ c : ℝ, c ≠ 0 → labF (c / c) = 1 := by
    intro c hc
    rw [div_self hc]
    unfold labF
    rw [if_pos (by norm_num)]
    unfold cbrt
    rw [if_pos (by norm_num)]
    exact Real.one_rpow _
  unfold xyzToLab
  dsimp only
  rw [h1 REF_X (by norm_num [REF_X]), h1 REF_Y (by norm_num [REF_Y]),
    h1 REF_Z (by norm_num [REF_Z])]
  simp only [Lab.mk.injEq]
  norm_num

/-! ### Monotonicity of the RGB → XYZ direction -/

/-- `invGamma` is nondecreasing on nonnegative inputs; across the branch
boundary this rests on `(0.04045/12.92)^5 ≤ (0.09545/1.055)^12`. -/
lemma invGamma_mono {v w : ℝ} (hv : 0 ≤ v) (hvw : v ≤ w) : invGamma v ≤ invGamma w := by
  unfold invGamma
  split_ifs with h1 h2 h2
  · exact (div_le_div_iff_of_pos_right (by norm_num)).mpr hvw
  · push_neg at h2
    rw [show (2.4 : ℝ) = (12 : ℝ) / 5 by norm_num]
    have hkey : (0.04045 : ℝ) / 12.92
        ≤ (((0.04045 : ℝ) + 0.055) / 1.055) ^ ((12 : ℝ) / 5) := by
      apply le_rpow_twelve_fifths (by norm_num) (by norm_num)
      norm_num
    calc v / 12.92 ≤ 0.04045 / 12.92 := (div_le_div_iff_of_pos_right (by norm_num)).mpr h1
      _ ≤ (((0.04045 : ℝ) + 0.055) / 1.055) ^ ((12 : ℝ) / 5) := hkey
      _ ≤ ((w + 0.055) / 1.055) ^ ((12 : ℝ) / 5) := by
          apply Real.rpow_le_rpow (by norm_num)
            ((div_le_div_iff_of_pos_right (by norm_num)).mpr (by linarith)) (by norm_num)
  · exact absurd (hvw.trans h2) h1
  · exact Real.rpow_le_rpow (div_nonneg (by linarith) (by norm_num))
      ((div_le_div_iff_of_pos_right (by norm_num)).mpr (by linarith)) (by norm_num)

/-- Claim C10: `rgbToXyz` is monotone in each channel: raising one channel
while fixing the other two (all within `[0,255]`) cannot decrease any of the
X, Y, Z outputs, since `invGamma` is nondecreasing and all nine matrix
coefficients are nonnegative. -/
theorem c10_rgbToXyz_monotone (p q : RGB)
    (hpr : 0 ≤ p.r ∧ p.r ≤ 255) (hpg : 0 ≤ p.g ∧ p.g ≤ 255) (hpb : 0 ≤ p.b ∧ p.b ≤ 255)
    (hqr : 0 ≤ q.r ∧ q.r ≤ 255) (hqg : 0 ≤ q.g ∧ q.g ≤ 255) (hqb : 0 ≤ q.b ∧ q.b ≤ 255)
    (hcase : (p.r ≤ q.r ∧ p.g = q.g ∧ p.b = q.b) ∨
             (p.g ≤ q.g ∧ p.r = q.r ∧ p.b = q.b) ∨
             (p.b ≤ q.b ∧ p.r = q.r ∧ p.g = q.g)) :
    (rgbToXyz p).X ≤ (rgbToXyz q).X ∧ (rgbToXyz p).Y ≤ (rgbToXyz q).Y ∧
      (rgbToXyz p).Z ≤ (rgbToXyz q).Z := by
  have mono : ∀ a b : ℤ, 0 ≤ a → a ≤ b → invGamma ((a : ℝ) / 255) ≤ invGamma ((b : ℝ) / 255) := by
    intro a b h0 hab
    have h0q : (0 : ℝ) ≤ (a : ℝ) / 255 := by positivity
    have habq : (a : ℝ) / 255 ≤ (b : ℝ) / 255 := by
      have : (a : ℝ) ≤ (b : ℝ) := by exact_mod_cast hab
      linarith
    exact invGamma_mono h0q habq
  have key : invGamma ((p.r : ℝ) / 255) ≤ invGamma ((q.r : ℝ) / 255) ∧
      invGamma ((p.g : ℝ) / 255) ≤ invGamma ((q.g : ℝ) / 255) ∧
      invGamma ((p.b : ℝ) / 255) ≤ invGamma ((q.b : ℝ) / 255) := by
    rcases hcase with ⟨h, e1, e2⟩ | ⟨h, e1, e2⟩ | ⟨h, e1, e2⟩
    · exact ⟨mono _ _ hpr.1 h, by rw [e1], by rw [e2]⟩
    · exact ⟨by rw [e1], mono _ _ hpg.1 h, by rw [e2]⟩
    · exact ⟨by rw [e1], by rw [e2], mono _ _ hpb.1 h⟩
  obtain ⟨kr, kg, kb⟩ := key
  unfold rgbToXyz
  refine ⟨?_, ?_, ?_⟩ <;> dsimp only <;> nlinarith [kr, kg, kb]

/-- Witness for C10: raising the red channel from 10 to 50. -/
theorem c10_rgbToXyz_monotone_witness :
    (rgbToXyz ⟨10, 20, 30⟩).X ≤ (rgbToXyz ⟨50, 20, 30⟩).X ∧
    (rgbToXyz ⟨10, 20, 30⟩).Y ≤ (rgbToXyz ⟨50, 20, 30⟩).Y ∧
    (rgbToXyz ⟨10, 20, 30⟩).Z ≤ (rgbToXyz ⟨50, 20, 30⟩).Z :=
  c10_rgbToXyz_monotone ⟨10, 20, 30⟩ ⟨50, 20, 30⟩ (by decide) (by decide) (by decide)
    (by decide) (by decide) (by decide) (Or.inl ⟨by decide, rfl, rfl⟩)

/-! ### The XYZ → RGB → XYZ round trip (claim C1) -/

lemma invGamma_one : invGamma 1 = 1 := by
  unfold invGamma
  rw [if_neg (by norm_num), show ((1 : ℝ) + 0.055) / 1.055 = 1 by norm_num]
  exact Real.one_rpow _

lemma invGamma_nonneg {v : ℝ} (hv : 0 ≤ v) : 0 ≤ invGamma v := by
  unfold invGamma
  split_ifs with h
  · positivity
  · exact Real.rpow_nonneg (div_nonneg (by linarith) (by norm_num)) _

lemma invGamma_le_one {v : ℝ} (hv : v ≤ 1) : invGamma v ≤ 1 := by
  unfold invGamma
  split_ifs with h
  · calc v / 12.92 ≤ 0.04045 / 12.92 := (div_le_div_iff_of_pos_right (by norm_num)).mpr h
      _ ≤ 1 := by norm_num
  · exact Real.rpow_le_one (div_nonneg (by linarith) (by norm_num))
      (by rw [div_le_one (by norm_num)]; linarith) (by norm_num)

lemma gammaSRGB_gt_one {q : ℝ} (hq : 1 < q) : 1 < gammaSRGB q := by
  unfold gammaSRGB
  rw [if_neg (by intro h; norm_num at h; linarith)]
  have h1 : (1 : ℝ) < q ^ ((1 : ℝ) / 2.4) := by
    rw [Real.one_lt_rpow_iff_of_pos (by linarith)]
    exact Or.inl ⟨hq, by norm_num⟩
  nlinarith [h1]

/-- Counterexample to claim C1 as stated: on the in-range triple
`(255, 255, 255)` the round trip `xyzToRgb ∘ rgbToXyz` reports
`clipped = true`, because the 4-digit inverse matrix is not an exact inverse
of the 7-digit forward matrix and the round-tripped linear green channel
lands slightly above 1. -/
theorem c1_counterexample : (xyzToRgb (rgbToXyz ⟨255, 255, 255⟩)).clipped := by
  unfold xyzToRgb
  dsimp only
  refine Or.inr (Or.inr (Or.inr (Or.inl ?_)))
  apply gammaSRGB_gt_one
  unfold xyzLinG rgbToXyz
  dsimp only
  rw [show (((255 : ℤ) : ℝ)) / 255 = 1 by norm_num, invGamma_one]
  norm_num

/-- Weighted AM-GM in multiplied-through form: the tangent-line bound for
the concave map `x ↦ x^(5/12)`. -/
lemma young_five_twelfths {x y : ℝ} (hx : 0 < x) (hy : 0 ≤ y) :
    y ^ ((5 : ℝ) / 12) * x
      ≤ (5 / 12 * y + 7 / 12 * x) * x ^ ((5 : ℝ) / 12) := by
  have hcast : ((5 : ℝ) / 12) = 5 / 12 := by push_cast; ring
  rw [hcast]
  have h := Real.geom_mean_le_arith_mean2_weighted (by norm_num : (0 : ℝ) ≤ 5 / 12)
    (by norm_num : (0 : ℝ) ≤ 7 / 12) hy hx.le (by norm_num)
  have hmul := mul_le_mul_of_nonneg_right h (Real.rpow_nonneg hx.le ((5 : ℝ) / 12))
  calc y ^ ((5 : ℝ) / 12) * x
      = y ^ ((5 : ℝ) / 12) * x ^ ((7 : ℝ) / 12) * x ^ ((5 : ℝ) / 12) := by
        rw [mul_assoc, ← Real.rpow_add hx,
          show (7 : ℝ) / 12 + 5 / 12 = 1 by norm_num, Real.rpow_one]
    _ ≤ (5 / 12 * y + 7 / 12 * x) * x ^ ((5 : ℝ) / 12) := hmul

set_option maxHeartbeats 3200000 in
/-- Core estimate behind the amended claim C1: if a linear channel value `w`
differs from `invGamma (n/255)` by at most `A + B * invGamma (n/255)` with
`A ≤ 1.08e-4` and `B ≤ 2.02e-4` (bounds on the row sums of the exact error
matrix of the two sRGB matrices in the code), then gamma-encoding, rounding
and clamping `w` recovers exactly the integer `n`. -/
lemma channel_roundtrip (n : ℤ) (hn0 : 0 ≤ n) (hn255 : n ≤ 255)
    (w A B : ℝ) (hA0 : 0 ≤ A) (hA : A ≤ 108 / 10 ^ 6) (hB0 : 0 ≤ B) (hB : B ≤ 202 / 10 ^ 6)
    (hw : |w - invGamma ((n : ℝ) / 255)| ≤ A + B * invGamma ((n : ℝ) / 255)) :
    clampInt (rndR (gammaSRGB w * 255)) 0 255 = n := by
  have hn0R : (0 : ℝ) ≤ (n : ℝ) := by exact_mod_cast hn0
  have hn255R : ((n : ℝ)) ≤ 255 := by exact_mod_cast hn255
  suffices hbounds : (n : ℝ) - 1 / 2 < gammaSRGB w * 255 ∧ gammaSRGB w * 255 < (n : ℝ) + 1 / 2 by
    rw [rndR_eq_of_bounds _ n hn0 hbounds.1 hbounds.2]
    exact clampInt_eq_self _ _ _ hn0 hn255
  by_cases hn10 : n ≤ 10
  -- ===== linear input region: n ≤ 10 =====
  case pos =>
    have hn10R : (n : ℝ) ≤ 10 := by exact_mod_cast hn10
    have hv04 : (n : ℝ) / 255 ≤ 0.04045 := by
      calc (n : ℝ) / 255 ≤ 10 / 255 := (div_le_div_iff_of_pos_right (by norm_num)).mpr hn10R
        _ ≤ 0.04045 := by norm_num
    have hinv : invGamma ((n : ℝ) / 255) = (n : ℝ) / 255 / 12.92 := by
      unfold invGamma
      rw [if_pos hv04]
    rw [hinv] at hw
    set L : ℝ := (n : ℝ) / 255 / 12.92 with hLdef
    have hid : L * 3294.6 = n := by
      rw [hLdef, div_div, show (255 : ℝ) * 12.92 = 3294.6 by norm_num,
        div_mul_cancel₀ _ (by norm_num : (3294.6 : ℝ) ≠ 0)]
    have hL0 : (0 : ℝ) ≤ L := by rw [hLdef]; positivity
    have hLub : L ≤ 50 / 16473 := by
      rw [hLdef]
      calc (n : ℝ) / 255 / 12.92 ≤ 10 / 255 / 12.92 := by
            refine (div_le_div_iff_of_pos_right (by norm_num)).mpr
              ((div_le_div_iff_of_pos_right (by norm_num)).mpr hn10R)
        _ ≤ 50 / 16473 := by norm_num
    have hBl : B * L ≤ 202 / 10 ^ 6 * (50 / 16473) :=
      mul_le_mul hB hLub hL0 (by norm_num)
    have hwd : |w - L| ≤ 1087 / 10 ^ 7 := by
      refine hw.trans ?_
      have h7 : (202 : ℝ) / 10 ^ 6 * (50 / 16473) ≤ 7 / 10 ^ 7 := by norm_num
      linarith
    obtain ⟨hwlo, hwhi⟩ := abs_le.mp hwd
    by_cases hwlin : w ≤ 0.0031308
    · -- output also in the linear branch of the forward gamma
      have hg : gammaSRGB w = 12.92 * w := by
        unfold gammaSRGB
        rw [if_pos hwlin]
      rw [hg]
      constructor <;> nlinarith [hid, hwlo, hwhi]
    · -- near the branch point: this forces n = 10
      push_neg at hwlin
      have hn10eq : n = 10 := by
        have h9 : ((9 : ℤ) : ℝ) < (n : ℝ) := by push_cast; nlinarith [hid, hwhi, hwlin]
        have h9' : (9 : ℤ) < n := by exact_mod_cast h9
        omega
      have hw0 : (0 : ℝ) ≤ w := by linarith
      have hwub : w ≤ 3145 / 10 ^ 6 := by linarith
      have hg : gammaSRGB w = 1.055 * w ^ ((5 : ℝ) / 12) - 0.055 := by
        unfold gammaSRGB
        rw [if_neg (by linarith), show (1 : ℝ) / 2.4 = (5 : ℝ) / 12 by
          push_cast; norm_num]
      rw [hg, hn10eq]
      have hup : w ^ ((5 : ℝ) / 12) < 327 / 3587 := by
        calc w ^ ((5 : ℝ) / 12)
            ≤ ((3145 : ℝ) / 10 ^ 6) ^ ((5 : ℝ) / 12) :=
              Real.rpow_le_rpow hw0 hwub (by positivity)
          _ < 327 / 3587 := by
              apply rpow_five_twelfths_lt (by norm_num) (by norm_num)
              norm_num
      have hdn : (941 : ℝ) / 10761 < w ^ ((5 : ℝ) / 12) := by
        calc (941 : ℝ) / 10761
            < ((31308 : ℝ) / 10 ^ 7) ^ ((5 : ℝ) / 12) := by
              apply lt_rpow_five_twelfths (by norm_num) (by norm_num)
              norm_num
          _ ≤ w ^ ((5 : ℝ) / 12) :=
              Real.rpow_le_rpow (by norm_num) (by nlinarith [hwlin]) (by positivity)
      have h10 : ((10 : ℤ) : ℝ) = 10 := by norm_num
      rw [h10]
      constructor
      · linarith [hdn]
      · linarith [hup]
  -- ===== power input region: 11 ≤ n =====
  case neg =>
    push_neg at hn10
    have hn11R : (11 : ℝ) ≤ (n : ℝ) := by exact_mod_cast hn10
    have hv04 : ¬((n : ℝ) / 255 ≤ 0.04045) := by
      push_neg
      calc (0.04045 : ℝ) < 11 / 255 := by norm_num
        _ ≤ (n : ℝ) / 255 := (div_le_div_iff_of_pos_right (by norm_num)).mpr hn11R
    have hinv : invGamma ((n : ℝ) / 255)
        = (((n : ℝ) / 255 + 0.055) / 1.055) ^ ((12 : ℝ) / 5) := by
      unfold invGamma
      rw [if_neg hv04, show (2.4 : ℝ) = (12 : ℝ) / 5 by push_cast; norm_num]
    set b : ℝ := ((n : ℝ) / 255 + 0.055) / 1.055 with hbdef
    set l : ℝ := b ^ ((12 : ℝ) / 5) with hldef
    rw [hinv] at hw
    have hb_lo : (1001 : ℝ) / 10761 ≤ b := by
      rw [hbdef]
      rw [show (1001 : ℝ) / 10761 = ((11 : ℝ) / 255 + 0.055) / 1.055 by norm_num]
      refine (div_le_div_iff_of_pos_right (by norm_num)).mpr ?_
      have : (11 : ℝ) / 255 ≤ (n : ℝ) / 255 :=
        (div_le_div_iff_of_pos_right (by norm_num)).mpr hn11R
      linarith
    have hb_hi : b ≤ 1 := by
      rw [hbdef]
      rw [div_le_one (by norm_num)]
      have : (n : ℝ) / 255 ≤ 1 := by
        rw [div_le_one (by norm_num)]
        exact hn255R
      linarith
    have hb_pos : (0 : ℝ) < b := lt_of_lt_of_le (by norm_num) hb_lo
    have hl_pos : (0 : ℝ) < l := Real.rpow_pos_of_pos hb_pos _
    have hbl : l ^ ((5 : ℝ) / 12) = b := by
      rw [hldef, ← Real.rpow_mul hb_pos.le,
        show (12 : ℝ) / 5 * ((5 : ℝ) / 12) = 1 by
          push_cast; norm_num,
        Real.rpow_one]
    have hl_lo : (334 : ℝ) / 10 ^ 5 ≤ l := by
      rw [hldef]
      calc (334 : ℝ) / 10 ^ 5
          ≤ ((1001 : ℝ) / 10761) ^ ((12 : ℝ) / 5) := by
            apply le_rpow_twelve_fifths (by norm_num) (by norm_num)
            norm_num
        _ ≤ b ^ ((12 : ℝ) / 5) :=
            Real.rpow_le_rpow (by norm_num) hb_lo (by positivity)
    have hl_hi : l ≤ 1 := by
      rw [hldef]
      exact Real.rpow_le_one hb_pos.le hb_hi (by positivity)
    have hb28 : b ≤ 28 * l := by
      have h75 : (1 : ℝ) / 28 ≤ b ^ ((7 : ℝ) / 5) := by
        apply le_rpow_seven_fifths hb_pos.le (by norm_num)
        calc ((1 : ℝ) / 28) ^ 5 ≤ ((1001 : ℝ) / 10761) ^ 7 := by norm_num
          _ ≤ b ^ 7 := pow_le_pow_left₀ (by norm_num) hb_lo 7
      have hsplit : l = b * b ^ ((7 : ℝ) / 5) := by
        rw [hldef, show (12 : ℝ) / 5 = 1 + (7 : ℝ) / 5 by
          push_cast; norm_num, Real.rpow_add hb_pos, Real.rpow_one]
      linarith [mul_le_mul_of_nonneg_left h75 hb_pos.le, hsplit]
    have hABl : A + B * l ≤ 327 / 10 ^ 4 * l := by
      have hA' : A ≤ 324 / 10 ^ 4 * l := by linarith [hl_lo, hA]
      have hB' : B * l ≤ 202 / 10 ^ 6 * l := mul_le_mul_of_nonneg_right hB hl_pos.le
      linarith [hl_lo]
    obtain ⟨hwlo0, hwhi0⟩ := abs_le.mp hw
    have hw_lo : (1 - 327 / 10 ^ 4) * l ≤ w := by linarith [hABl, hwlo0]
    have hw_hi : w ≤ (1 + 327 / 10 ^ 4) * l := by linarith [hABl, hwhi0]
    have hw_pos : (0 : ℝ) < w := by linarith [hw_lo, hl_lo]
    have hw_branch : ¬(w ≤ 0.0031308) := by
      push_neg
      linarith [hw_lo, hl_lo]
    have hg : gammaSRGB w = 1.055 * w ^ ((5 : ℝ) / 12) - 0.055 := by
      unfold gammaSRGB
      rw [if_neg hw_branch, show (1 : ℝ) / 2.4 = (5 : ℝ) / 12 by
        push_cast; norm_num]
    rw [hg]
    have hvb : (1.055 * b - 0.055) * 255 = (n : ℝ) := by
      rw [hbdef]
      field_simp
      ring
    -- upper bound on the gamma-encoded perturbed value
    have hup : w ^ ((5 : ℝ) / 12) < b + 20 / 10761 := by
      by_cases hwl : w ≤ l
      · have : w ^ ((5 : ℝ) / 12) ≤ l ^ ((5 : ℝ) / 12) :=
          Real.rpow_le_rpow hw_pos.le hwl (by positivity)
        rw [hbl] at this
        linarith [this]
      · push_neg at hwl
        have hyoung := young_five_twelfths hl_pos hw_pos.le
        rw [hbl] at hyoung
        -- hyoung : w^(5/12) * l ≤ (5/12 * w + 7/12 * l) * b
        have hstep : b * (w - l) ≤ 28 * l * A + B * l := by
          have h1 : b * (w - l) ≤ b * (A + B * l) :=
            mul_le_mul_of_nonneg_left (by linarith) hb_pos.le
          have h2 : b * A ≤ 28 * l * A := mul_le_mul_of_nonneg_right hb28 hA0
          have h3 : b * (B * l) ≤ 1 * (B * l) :=
            mul_le_mul_of_nonneg_right hb_hi (by positivity)
          nlinarith [h1, h2, h3]
        have hcoef : (5 : ℝ) / 12 * (28 * l * A + B * l) < 20 / 10761 * l := by
          have hc1 : (5 : ℝ) / 12 * (28 * A + B) ≤ 1613 / 1200000 := by linarith
          have hc2 : ((5 : ℝ) / 12 * (28 * A + B)) * l ≤ (1613 : ℝ) / 1200000 * l :=
            mul_le_mul_of_nonneg_right hc1 hl_pos.le
          have hc3 : (1613 : ℝ) / 1200000 * l < 20 / 10761 * l :=
            mul_lt_mul_of_pos_right (by norm_num) hl_pos
          nlinarith [hc2, hc3]
        have hfin : w ^ ((5 : ℝ) / 12) * l < (b + 20 / 10761) * l := by
          nlinarith [hyoung, hstep, hcoef]
        exact lt_of_mul_lt_mul_right hfin hl_pos.le
    -- lower bound on the gamma-encoded perturbed value
    have hdn : b - 20 / 10761 < w ^ ((5 : ℝ) / 12) := by
      by_cases hwl : l ≤ w
      · have : l ^ ((5 : ℝ) / 12) ≤ w ^ ((5 : ℝ) / 12) :=
          Real.rpow_le_rpow hl_pos.le hwl (by positivity)
        rw [hbl] at this
        linarith [this]
      · push_neg at hwl
        have hyoung := young_five_twelfths hw_pos hl_pos.le
        rw [hbl] at hyoung
        -- hyoung : l^(5/12) * w ≤ (5/12 * l + 7/12 * w) * w^(5/12), with l^(5/12) = b
        have hF_pos : (0 : ℝ) < 5 / 12 * l + 7 / 12 * w := by nlinarith
        have hstep : b * (l - w) ≤ 28 * l * A + B * l := by
          have h1 : b * (l - w) ≤ b * (A + B * l) :=
            mul_le_mul_of_nonneg_left (by linarith) hb_pos.le
          have h2 : b * A ≤ 28 * l * A := mul_le_mul_of_nonneg_right hb28 hA0
          have h3 : b * (B * l) ≤ 1 * (B * l) :=
            mul_le_mul_of_nonneg_right hb_hi (by positivity)
          nlinarith [h1, h2, h3]
        have hcoef : (5 : ℝ) / 12 * (28 * l * A + B * l)
            < 20 / 10761 * (5 / 12 * l + 7 / 12 * w) := by
          have hc1 : (5 : ℝ) / 12 * (28 * A + B) ≤ 1613 / 1200000 := by linarith
          have hc2 : ((5 : ℝ) / 12 * (28 * A + B)) * l ≤ (1613 : ℝ) / 1200000 * l :=
            mul_le_mul_of_nonneg_right hc1 hl_pos.le
          have hc3 : (1613 : ℝ) / 1200000 * l
              < 20 / 10761 * ((5 : ℝ) / 12 + 7 / 12 * (9673 / 10 ^ 4)) * l :=
            mul_lt_mul_of_pos_right (by norm_num) hl_pos
          have hc4 : 20 / 10761 * ((7 : ℝ) / 12 * (9673 / 10 ^ 4 * l))
              ≤ 20 / 10761 * ((7 : ℝ) / 12 * w) := by
            have : (9673 : ℝ) / 10 ^ 4 * l ≤ w := by nlinarith [hw_lo]
            nlinarith [this]
          nlinarith [hc2, hc3, hc4]
        have hK : (b - 20 / 10761) * (5 / 12 * l + 7 / 12 * w) < b * w := by
          nlinarith [hstep, hcoef]
        have hfin : (b - 20 / 10761) * (5 / 12 * l + 7 / 12 * w)
            < w ^ ((5 : ℝ) / 12) * (5 / 12 * l + 7 / 12 * w) := by
          nlinarith [hK, hyoung]
        exact lt_of_mul_lt_mul_right hfin hF_pos.le
    constructor
    · nlinarith [hdn, hvb]
    · nlinarith [hup, hvb]

/-- Row 1 of the exact error matrix of the composed sRGB matrices:
`E₁ = (4554542, 1662, -4327176) / 10^11`. -/
lemma err_row1 (x y z : ℝ) (hx0 : 0 ≤ x) (hx1 : x ≤ 1) (hy0 : 0 ≤ y) (hy1 : y ≤ 1)
    (hz0 : 0 ≤ z) (hz1 : z ≤ 1) :
    |(x * 0.4124564 + y * 0.3575761 + z * 0.1804375) * 100 / 100 * 3.2406
      + (x * 0.2126729 + y * 0.7151522 + z * 0.0721750) * 100 / 100 * (-1.5372)
      + (x * 0.0193339 + y * 0.1191920 + z * 0.9503041) * 100 / 100 * (-0.4986) - x|
      ≤ 44 / 10 ^ 6 + 46 / 10 ^ 6 * x := by
  have he : (x * 0.4124564 + y * 0.3575761 + z * 0.1804375) * 100 / 100 * 3.2406
      + (x * 0.2126729 + y * 0.7151522 + z * 0.0721750) * 100 / 100 * (-1.5372)
      + (x * 0.0193339 + y * 0.1191920 + z * 0.9503041) * 100 / 100 * (-0.4986) - x
      = (4554542 * x + 1662 * y - 4327176 * z) / 10 ^ 11 := by ring
  rw [abs_le, he]
  constructor <;> linarith

/-- Row 2 of the exact error matrix of the composed sRGB matrices:
`E₂ = (10517671, -2651853, -240860) / 10^11`. -/
lemma err_row2 (x y z : ℝ) (hx0 : 0 ≤ x) (hx1 : x ≤ 1) (hy0 : 0 ≤ y) (hy1 : y ≤ 1)
    (hz0 : 0 ≤ z) (hz1 : z ≤ 1) :
    |(x * 0.4124564 + y * 0.3575761 + z * 0.1804375) * 100 / 100 * (-0.9689)
      + (x * 0.2126729 + y * 0.7151522 + z * 0.0721750) * 100 / 100 * 1.8758
      + (x * 0.0193339 + y * 0.1191920 + z * 0.9503041) * 100 / 100 * 0.0415 - y|
      ≤ 108 / 10 ^ 6 + 27 / 10 ^ 6 * y := by
  have he : (x * 0.4124564 + y * 0.3575761 + z * 0.1804375) * 100 / 100 * (-0.9689)
      + (x * 0.2126729 + y * 0.7151522 + z * 0.0721750) * 100 / 100 * 1.8758
      + (x * 0.0193339 + y * 0.1191920 + z * 0.9503041) * 100 / 100 * 0.0415 - y
      = (10517671 * x - 2651853 * y - 240860 * z) / 10 ^ 11 := by ring
  rw [abs_le, he]
  constructor <;> linarith

/-- Row 3 of the exact error matrix of the composed sRGB matrices:
`E₃ = (2448218, 1188397, -20189755) / 10^11`. -/
lemma err_row3 (x y z : ℝ) (hx0 : 0 ≤ x) (hx1 : x ≤ 1) (hy0 : 0 ≤ y) (hy1 : y ≤ 1)
    (hz0 : 0 ≤ z) (hz1 : z ≤ 1) :
    |(x * 0.4124564 + y * 0.3575761 + z * 0.1804375) * 100 / 100 * 0.0557
      + (x * 0.2126729 + y * 0.7151522 + z * 0.0721750) * 100 / 100 * (-0.2040)
      + (x * 0.0193339 + y * 0.1191920 + z * 0.9503041) * 100 / 100 * 1.0570 - z|
      ≤ 37 / 10 ^ 6 + 202 / 10 ^ 6 * z := by
  have he : (x * 0.4124564 + y * 0.3575761 + z * 0.1804375) * 100 / 100 * 0.0557
      + (x * 0.2126729 + y * 0.7151522 + z * 0.0721750) * 100 / 100 * (-0.2040)
      + (x * 0.0193339 + y * 0.1191920 + z * 0.9503041) * 100 / 100 * 1.0570 - z
      = (2448218 * x + 1188397 * y - 20189755 * z) / 10 ^ 11 := by ring
  rw [abs_le, he]
  constructor <;> linarith

/-- Claim C1 (amended): for every RGB triple with integer channels in
`[0,255]`, `xyzToRgb (rgbToXyz rgb)` returns the original triple; the
clipping flag, however, can be `true` on such in-range triples (see the
counterexample at `(255,255,255)`). -/
theorem c1_xyz_roundtrip_amended (rgb : RGB)
    (hr0 : 0 ≤ rgb.r) (hr1 : rgb.r ≤ 255) (hg0 : 0 ≤ rgb.g) (hg1 : rgb.g ≤ 255)
    (hb0 : 0 ≤ rgb.b) (hb1 : rgb.b ≤ 255) :
    (xyzToRgb (rgbToXyz rgb)).rgb = rgb := by
  obtain ⟨r, g, b⟩ := rgb
  simp only at hr0 hr1 hg0 hg1 hb0 hb1
  have cast_le_one : ∀ ch : ℤ, ch ≤ 255 → ((ch : ℝ) / 255) ≤ 1 := by
    intro ch h
    rw [div_le_one (by norm_num)]
    exact_mod_cast h
  have cast_nonneg : ∀ ch : ℤ, 0 ≤ ch → (0 : ℝ) ≤ (ch : ℝ) / 255 := by
    intro ch h
    have : (0 : ℝ) ≤ (ch : ℝ) := by exact_mod_cast h
    positivity
  have hx0 := invGamma_nonneg (cast_nonneg r hr0)
  have hx1 := invGamma_le_one (cast_le_one r hr1)
  have hy0 := invGamma_nonneg (cast_nonneg g hg0)
  have hy1 := invGamma_le_one (cast_le_one g hg1)
  have hz0 := invGamma_nonneg (cast_nonneg b hb0)
  have hz1 := invGamma_le_one (cast_le_one b hb1)
  unfold xyzToRgb
  simp only [RGB.mk.injEq]
  refine ⟨?_, ?_, ?_⟩
  · apply channel_roundtrip r hr0 hr1 _ (44 / 10 ^ 6) (46 / 10 ^ 6)
      (by norm_num) (by norm_num) (by norm_num) (by norm_num)
    unfold xyzLinR rgbToXyz
    dsimp only
    exact err_row1 _ _ _ hx0 hx1 hy0 hy1 hz0 hz1
  · apply channel_roundtrip g hg0 hg1 _ (108 / 10 ^ 6) (27 / 10 ^ 6)
      (by norm_num) (by norm_num) (by norm_num) (by norm_num)
    unfold xyzLinG rgbToXyz
    dsimp only
    exact err_row2 _ _ _ hx0 hx1 hy0 hy1 hz0 hz1
  · apply channel_roundtrip b hb0 hb1 _ (37 / 10 ^ 6) (202 / 10 ^ 6)
      (by norm_num) (by norm_num) (by norm_num) (by norm_num)
    unfold xyzLinB rgbToXyz
    dsimp only
    exact err_row3 _ _ _ hx0 hx1 hy0 hy1 hz0 hz1

/-- Witness for the amended C1 at the triple `(0, 0, 0)`. -/
theorem c1_xyz_roundtrip_amended_witness :
    (xyzToRgb (rgbToXyz ⟨0, 0, 0⟩)).rgb = ⟨0, 0, 0⟩ :=
  c1_xyz_roundtrip_amended ⟨0, 0, 0⟩ (by decide) (by decide) (by decide) (by decide)
    (by decide) (by decide)

end ColourModels
